import Mathlib

/-!
Verification of the animation and procedural-geometry module of the
SceneCanvas component (src/src/components/SceneCanvas.tsx).

All numeric code is embedded over the rationals; the only numeric
operations the source performs that are not exact rational arithmetic
(square roots, powers, trigonometric functions supplied by the Math
object of the host, and the curve sampling functions of the rendering
library) are passed in as explicit function parameters, and theorems
that need analytic facts about them take those facts as hypotheses.
Decimal literals of the source are written as exact fractions, for
example 0.16 is 4/25 and 0.002 is 1/500.
-/

/-- THREE.MathUtils.clamp: Math.max( min, Math.min( max, value ) ). -/
def clamp (value mn mx : ℚ) : ℚ := max mn (min mx value)

/-- THREE.MathUtils.smootherstep: returns 0 below the lower edge, 1 above
the upper edge, and otherwise the quintic 6 t^5 - 15 t^4 + 10 t^3 of the
renormalised coordinate. -/
def smootherstep (x mn mx : ℚ) : ℚ :=
  if x ≤ mn then 0
  else if mx ≤ x then 1
  else
    let t := (x - mn) / (mx - mn)
    t * t * t * (t * (t * 6 - 15) + 10)

/-- THREE.MathUtils.lerp: ( 1 - t ) * x + t * y. -/
def mathLerp (x y t : ℚ) : ℚ := (1 - t) * x + t * y

/-- ANIMATION_DURATION constant of SceneCanvas.tsx. -/
def ANIMATION_DURATION : ℚ := 8

/-- The eased progress computed by the useFrame callback of SceneContent:
elapsed is the clock time minus the recorded start time, raw is
clamp(elapsed / ANIMATION_DURATION, 0, 1) and the result is
smootherstep(raw, 0, 1). -/
def easedAt (start t : ℚ) : ℚ :=
  smootherstep (clamp ((t - start) / ANIMATION_DURATION) 0 1) 0 1

/-- Progress formula as worded by the specification claim: for elapsed
time t the progress is smootherstep(clamp(t / 8, 0, 1), 0, 1). -/
def specProgress (t : ℚ) : ℚ := smootherstep (clamp (t / 8) 0 1) 0 1

/-- Path parameter of Nino as a function of the eased progress:
Math.min(Math.max(eased - 0.16, 0) * 0.94, 0.98). -/
def ninoOf (eased : ℚ) : ℚ := min (max (eased - 4/25) 0 * (47/50)) (49/50)

/-- The quintic core of smootherstep is nonnegative at nonnegative inputs. -/
lemma smootherstep_core_nonneg (t : ℚ) (ht : 0 ≤ t) :
    0 ≤ t * t * t * (t * (t * 6 - 15) + 10) := by
  have h1 : 0 ≤ t * (t * 6 - 15) + 10 := by nlinarith [sq_nonneg (4 * t - 5)]
  have h2 : 0 ≤ t * t * t := by positivity
  exact mul_nonneg h2 h1

/-- The quintic core of smootherstep is at most one on [0, 1]. -/
lemma smootherstep_core_le_one (t : ℚ) (ht : 0 ≤ t) (ht1 : t ≤ 1) :
    t * t * t * (t * (t * 6 - 15) + 10) ≤ 1 := by
  have key : 1 - t * t * t * (t * (t * 6 - 15) + 10)
      = (1 - t) ^ 3 * (6 * t ^ 2 + 3 * t + 1) := by ring
  nlinarith [pow_nonneg (by linarith : (0:ℚ) ≤ 1 - t) 3, sq_nonneg t,
    mul_nonneg (pow_nonneg (by linarith : (0:ℚ) ≤ 1 - t) 3)
      (by nlinarith [sq_nonneg t] : (0:ℚ) ≤ 6 * t ^ 2 + 3 * t + 1)]

/-- The quintic core of smootherstep is monotone on [0, 1]. -/
lemma smootherstep_core_mono (x y : ℚ) (hx : 0 ≤ x) (hy : y ≤ 1) (hxy : x ≤ y) :
    x * x * x * (x * (x * 6 - 15) + 10) ≤ y * y * y * (y * (y * 6 - 15) + 10) := by
  have hy0 : 0 ≤ y := hx.trans hxy
  have hmx : 0 ≤ 1 - x := by linarith
  have hmy : 0 ≤ 1 - y := by linarith
  have hd : 0 ≤ y - x := by linarith
  nlinarith [mul_nonneg hd (mul_nonneg (mul_nonneg (mul_nonneg hx hy0) hmx) hmy),
    mul_nonneg hd (mul_nonneg (mul_nonneg (sq_nonneg (x - y)) hx) hy0),
    mul_nonneg hd (mul_nonneg (mul_nonneg (sq_nonneg (x - y)) hmx) hmy),
    mul_nonneg hd (mul_nonneg (sq_nonneg (x - y))
      (by nlinarith [sq_nonneg (x + y), sq_nonneg x, sq_nonneg y] :
        (0:ℚ) ≤ x ^ 2 + x * y + y ^ 2)),
    mul_nonneg hd (mul_nonneg (sq_nonneg x) (sq_nonneg (1 - x))),
    mul_nonneg hd (mul_nonneg (sq_nonneg y) (sq_nonneg (1 - y)))]

/-- With edges 0 and 1 the renormalisation of smootherstep is the identity. -/
lemma smootherstep01_eq (x : ℚ) :
    smootherstep x 0 1 =
      if x ≤ 0 then 0 else if 1 ≤ x then 1
      else x * x * x * (x * (x * 6 - 15) + 10) := by
  simp [smootherstep]

/-- smootherstep with edges 0 and 1 always lies in [0, 1]. -/
lemma smootherstep01_mem (x : ℚ) : 0 ≤ smootherstep x 0 1 ∧ smootherstep x 0 1 ≤ 1 := by
  rw [smootherstep01_eq]
  split
  · norm_num
  · split
    · norm_num
    · rename_i h1 h2
      push_neg at h1 h2
      exact ⟨smootherstep_core_nonneg x h1.le, smootherstep_core_le_one x h1.le h2.le⟩

/-- smootherstep with edges 0 and 1 is monotone. -/
lemma smootherstep01_mono (x y : ℚ) (hxy : x ≤ y) :
    smootherstep x 0 1 ≤ smootherstep y 0 1 := by
  rw [smootherstep01_eq, smootherstep01_eq]
  by_cases hx0 : x ≤ 0
  · rw [if_pos hx0]
    by_cases hy0 : y ≤ 0
    · rw [if_pos hy0]
    · rw [if_neg hy0]
      by_cases hy1 : 1 ≤ y
      · rw [if_pos hy1]; norm_num
      · rw [if_neg hy1]
        push_neg at hy0
        exact smootherstep_core_nonneg y hy0.le
  · rw [if_neg hx0]
    push_neg at hx0
    have hy0 : ¬ y ≤ 0 := by push_neg; linarith
    rw [if_neg hy0]
    by_cases hx1 : 1 ≤ x
    · have hy1 : 1 ≤ y := hx1.trans hxy
      rw [if_pos hx1, if_pos hy1]
    · rw [if_neg hx1]
      push_neg at hx1
      by_cases hy1 : 1 ≤ y
      · rw [if_pos hy1]
        exact smootherstep_core_le_one x hx0.le hx1.le
      · rw [if_neg hy1]
        push_neg at hy1
        exact smootherstep_core_mono x y hx0.le hy1.le hxy

/-- clamp to [0, 1] lies in [0, 1]. -/
lemma clamp01_mem (v : ℚ) : 0 ≤ clamp v 0 1 ∧ clamp v 0 1 ≤ 1 := by
  unfold clamp
  constructor
  · exact le_max_left 0 (min 1 v)
  · exact max_le (by norm_num) (min_le_left 1 v)

/-- clamp to [0, 1] is monotone. -/
lemma clamp01_mono (v w : ℚ) (h : v ≤ w) : clamp v 0 1 ≤ clamp w 0 1 := by
  unfold clamp
  exact max_le_max (le_refl 0) (min_le_min (le_refl 1) h)

/-- clamp to [0, 1] of a value at least 1 is 1. -/
lemma clamp01_of_ge_one (v : ℚ) (h : 1 ≤ v) : clamp v 0 1 = 1 := by
  unfold clamp
  rw [min_eq_left h, max_eq_right (by norm_num)]

/-- The eased frame progress always lies in [0, 1]. -/
lemma easedAt_mem (start t : ℚ) : 0 ≤ easedAt start t ∧ easedAt start t ≤ 1 :=
  smootherstep01_mem _

/-- The eased frame progress is monotone in the clock time. -/
lemma easedAt_mono (start t u : ℚ) (h : t ≤ u) : easedAt start t ≤ easedAt start u := by
  unfold easedAt
  exact smootherstep01_mono _ _ (clamp01_mono _ _ (by
    unfold ANIMATION_DURATION
    have : (t - start) / 8 ≤ (u - start) / 8 := by linarith
    exact this))

/-- At the recorded start time the eased progress is 0. -/
lemma easedAt_self (start : ℚ) : easedAt start start = 0 := by
  unfold easedAt ANIMATION_DURATION clamp smootherstep
  norm_num

/-- Once eight seconds have elapsed the eased progress is 1. -/
lemma easedAt_saturated (start t : ℚ) (h : 8 ≤ t - start) : easedAt start t = 1 := by
  unfold easedAt
  rw [show clamp ((t - start) / ANIMATION_DURATION) 0 1 = 1 from
    clamp01_of_ge_one _ (by unfold ANIMATION_DURATION; linarith)]
  unfold smootherstep
  norm_num

/-- C1: for every frame rendered at clock time t with recorded start time
start (so elapsed time t - start), the eased animation progress equals
smootherstep(clamp(elapsed / 8, 0, 1), 0, 1), and for every elapsed time of
at least 8 seconds it equals 1, so the animation has a fixed duration of
8 seconds. -/
theorem c1_fixed_duration_progress (start t : ℚ) :
    easedAt start t = specProgress (t - start) ∧
    (8 ≤ t - start → easedAt start t = 1) := by
  constructor
  · rfl
  · exact easedAt_saturated start t

/-- Witness for C1 at start time 0 and clock time 9. -/
theorem c1_fixed_duration_progress_witness :
    (8:ℚ) ≤ 9 - 0 ∧ easedAt 0 9 = 1 :=
  ⟨by norm_num, (c1_fixed_duration_progress 0 9).2 (by norm_num)⟩

/-- C9: for every eased progress value p in [0, 1], the path parameter of
Nino, min(max(p - 0.16, 0) * 0.94, 0.98), is nonnegative, at most the
parameter p of Jax, and at most 0.98, so Nino stays at or behind Jax and
never reaches the end of the path. -/
theorem c9_nino_behind_jax (p : ℚ) (h0 : 0 ≤ p) (h1 : p ≤ 1) :
    ninoOf p ≤ p ∧ ninoOf p ≤ 49/50 ∧ 0 ≤ ninoOf p := by
  refine ⟨?_, min_le_right _ _, ?_⟩
  · refine (min_le_left _ _).trans ?_
    rcases le_total (p - 4/25) 0 with h | h
    · rw [max_eq_right h]
      simpa using h0
    · rw [max_eq_left h]
      nlinarith
  · refine le_min (mul_nonneg (le_max_right _ _) (by norm_num)) (by norm_num)

/-- Witness for C9 at the eased progress value 1/2. -/
theorem c9_nino_behind_jax_witness :
    ninoOf (1/2) ≤ (1/2 : ℚ) ∧ ninoOf (1/2) ≤ 49/50 ∧ 0 ≤ ninoOf (1/2) :=
  c9_nino_behind_jax (1/2) (by norm_num) (by norm_num)

/-- The Park-Miller modulus 2147483647 used by createRandom. -/
def rngModulus : ℕ := 2147483647

/-- One multiplicative step of the generator on a natural state:
value = (value * 16807) % 2147483647. -/
def rngNext (v : ℕ) : ℕ := v * 16807 % 2147483647

/-- Initialisation of createRandom: value = seed % 2147483647 with the
truncated remainder of the host language, then value += 2147483646
whenever value <= 0. -/
def createRandomInit (seed : ℤ) : ℤ :=
  if Int.tmod seed 2147483647 ≤ 0 then Int.tmod seed 2147483647 + 2147483646
  else Int.tmod seed 2147483647

/-- Integer state of the generator created from seed, after n steps. -/
def rngState (seed : ℤ) : ℕ → ℤ
  | 0 => createRandomInit seed
  | n + 1 => Int.tmod (rngState seed n * 16807) 2147483647

/-- Value returned by call number n (counted from 0) of the generator
created from seed: (value - 1) / 2147483646 after the step. -/
def rngOut (seed : ℤ) (n : ℕ) : ℚ :=
  ((rngState seed (n + 1) : ℚ) - 1) / 2147483646

/-- The modulus of the generator is prime (it is the Mersenne prime 2^31 - 1). -/
lemma rngModulus_prime : Nat.Prime 2147483647 := by
  have h : (2147483647 : ℕ) = mersenne 31 := by rw [mersenne]; norm_num
  rw [h]
  exact lucas_lehmer_sufficiency 31 (by norm_num)
    (LucasLehmer.norm_num_ext.testTrueHelper 31 (by rfl) (by rfl))

/-- Truncated remainder by a positive modulus lies strictly between the
negated modulus and the modulus. -/
lemma tmod_bounds (a : ℤ) {b : ℤ} (hb : 0 < b) :
    -b < Int.tmod a b ∧ Int.tmod a b < b := by
  cases a with
  | ofNat m =>
    have hge : 0 ≤ Int.ofNat m := Int.ofNat_nonneg m
    rw [Int.tmod_eq_emod hge hb.le]
    have h0 := Int.emod_nonneg (Int.ofNat m) (ne_of_gt hb)
    have h1 := Int.emod_lt_of_pos (Int.ofNat m) hb
    exact ⟨by linarith, h1⟩
  | negSucc m =>
    obtain ⟨n, rfl⟩ : ∃ n : ℕ, b = Int.ofNat n := ⟨b.toNat, (Int.toNat_of_nonneg hb.le).symm⟩
    have hn : 0 < n := by
      by_contra hc
      push_neg at hc
      interval_cases n
      simp at hb
    have he : Int.tmod (Int.negSucc m) (Int.ofNat n) = -Int.ofNat ((m + 1) % n) := rfl
    rw [he]
    have hlt : (m + 1) % n < n := Nat.mod_lt _ hn
    have hlt2 : Int.ofNat ((m + 1) % n) < Int.ofNat n := Int.ofNat_lt.mpr hlt
    have hge2 : (0 : ℤ) ≤ Int.ofNat ((m + 1) % n) := Int.ofNat_nonneg _
    have hn2 : (0 : ℤ) < Int.ofNat n := Int.ofNat_lt.mpr hn
    exact ⟨by linarith, by linarith⟩

/-- The initial state of createRandom lies in [0, 2147483646]. -/
lemma createRandomInit_mem (seed : ℤ) :
    0 ≤ createRandomInit seed ∧ createRandomInit seed ≤ 2147483646 := by
  unfold createRandomInit
  obtain ⟨hlo, hhi⟩ := tmod_bounds seed (b := 2147483647) (by norm_num)
  split
  · constructor <;> linarith
  · rename_i h
    push_neg at h
    constructor <;> linarith

/-- A state in [1, 2147483646] steps to a state in [1, 2147483646]; the
lower bound uses primality of the modulus. -/
lemma rngStep_mem (v : ℤ) (h1 : 1 ≤ v) (h2 : v ≤ 2147483646) :
    1 ≤ Int.tmod (v * 16807) 2147483647 ∧
      Int.tmod (v * 16807) 2147483647 ≤ 2147483646 := by
  have hnn : (0 : ℤ) ≤ v * 16807 := by positivity
  rw [Int.tmod_eq_emod hnn (by norm_num)]
  have hlt := Int.emod_lt_of_pos (v * 16807) (show (0:ℤ) < 2147483647 by norm_num)
  have hge := Int.emod_nonneg (v * 16807) (show (2147483647:ℤ) ≠ 0 by norm_num)
  refine ⟨?_, by linarith⟩
  rcases eq_or_lt_of_le hge with h0 | h0
  · exfalso
    have hdvd : (2147483647 : ℤ) ∣ v * 16807 := Int.dvd_of_emod_eq_zero h0.symm
    have hp : Prime (2147483647 : ℤ) := by
      exact_mod_cast Nat.prime_iff_prime_int.mp rngModulus_prime
    rcases hp.dvd_mul.mp hdvd with hv | hc
    · have := Int.le_of_dvd (by linarith) hv
      linarith
    · have := Int.le_of_dvd (by norm_num) hc
      linarith
  · linarith

/-- All states of a generator whose initial state is nonzero stay in
[1, 2147483646]. -/
lemma rngState_mem (seed : ℤ) (h : createRandomInit seed ≠ 0) (n : ℕ) :
    1 ≤ rngState seed n ∧ rngState seed n ≤ 2147483646 := by
  induction n with
  | zero =>
    obtain ⟨h0, h1⟩ := createRandomInit_mem seed
    have h0' : rngState seed 0 = createRandomInit seed := rfl
    rw [h0']
    exact ⟨lt_of_le_of_ne h0 (Ne.symm h), h1⟩
  | succ n ih =>
    exact rngStep_mem _ ih.1 ih.2

/-- C10 (amended): for every integer seed whose adjusted initial state is
nonzero, every state of the generator lies in [1, 2147483646] and every
returned value lies in [0, 1); moreover the whole sequence is a function
of the initial state alone, so two generators initialised alike return
identical sequences. The excluded seeds are exactly the negative seeds
congruent to 1 modulo 2147483647, whose adjusted initial state is 0. -/
theorem c10_generator_invariants (seed : ℤ) (n : ℕ)
    (h : createRandomInit seed ≠ 0) :
    1 ≤ rngState seed (n + 1) ∧ rngState seed (n + 1) ≤ 2147483646 ∧
    0 ≤ rngOut seed n ∧ rngOut seed n < 1 ∧
    (∀ seed2 : ℤ, createRandomInit seed2 = createRandomInit seed →
      rngOut seed2 n = rngOut seed n) := by
  obtain ⟨hs1, hs2⟩ := rngState_mem seed h (n + 1)
  have hq1 : (1 : ℚ) ≤ (rngState seed (n + 1) : ℚ) := by exact_mod_cast hs1
  have hq2 : (rngState seed (n + 1) : ℚ) ≤ 2147483646 := by exact_mod_cast hs2
  refine ⟨hs1, hs2, ?_, ?_, ?_⟩
  · unfold rngOut
    apply div_nonneg (by linarith) (by norm_num)
  · unfold rngOut
    rw [div_lt_one (by norm_num)]
    linarith
  · intro seed2 hinit
    have hstate : ∀ m : ℕ, rngState seed2 m = rngState seed m := by
      intro m
      induction m with
      | zero => exact hinit
      | succ m ih => unfold rngState; rw [ih]
    unfold rngOut
    rw [hstate]

/-- Witness for C10 at seed 42 and call 0. -/
theorem c10_generator_invariants_witness :
    createRandomInit 42 ≠ 0 ∧ 0 ≤ rngOut 42 0 ∧ rngOut 42 0 < 1 :=
  ⟨by decide, (c10_generator_invariants 42 0 (by decide)).2.2.1,
    (c10_generator_invariants 42 0 (by decide)).2.2.2.1⟩

/-- Counterexample for C10 as stated: for the integer seed -2147483646 the
adjusted initial state is 0, the state stays 0 forever, and the first
returned value is -1/2147483646, which is negative, so the claimed output
range [0, 1) and state range [1, 2147483646] both fail. -/
theorem c10_counterexample :
    rngState (-2147483646) 0 = 0 ∧ rngState (-2147483646) 1 = 0 ∧
      rngOut (-2147483646) 0 < 0 := by
  refine ⟨by decide, by decide, ?_⟩
  show ((rngState (-2147483646) 1 : ℚ) - 1) / 2147483646 < 0
  norm_num [show rngState (-2147483646) 1 = 0 from by decide]

/-- Three-component rational vector mirroring THREE.Vector3. -/
structure Vec3 where
  x : ℚ
  y : ℚ
  z : ℚ
deriving DecidableEq

/-- Componentwise vector addition. -/
def vadd (a b : Vec3) : Vec3 := ⟨a.x + b.x, a.y + b.y, a.z + b.z⟩

/-- Componentwise vector subtraction. -/
def vsub (a b : Vec3) : Vec3 := ⟨a.x - b.x, a.y - b.y, a.z - b.z⟩

/-- Scalar multiple of a vector. -/
def vscale (c : ℚ) (a : Vec3) : Vec3 := ⟨c * a.x, c * a.y, c * a.z⟩

/-- THREE.Vector3.addScaledVector. -/
def vaddScaled (a b : Vec3) (s : ℚ) : Vec3 := ⟨a.x + b.x * s, a.y + b.y * s, a.z + b.z * s⟩

/-- THREE.Vector3.lengthSq: x*x + y*y + z*z. -/
def lengthSq (a : Vec3) : ℚ := a.x * a.x + a.y * a.y + a.z * a.z

/-- THREE.Vector3.crossVectors. -/
def cross (a b : Vec3) : Vec3 :=
  ⟨a.y * b.z - a.z * b.y, a.z * b.x - a.x * b.z, a.x * b.y - a.y * b.x⟩

/-- THREE.Vector3.normalize: divideScalar( length() || 1 ), with the length
computed as sq applied to lengthSq, where sq is the square root function of
the host. When the computed length is 0 the vector is divided by 1, hence
unchanged. -/
def vnormalize (sq : ℚ → ℚ) (a : Vec3) : Vec3 :=
  if sq (lengthSq a) = 0 then a else vscale (1 / sq (lengthSq a)) a

/-- THREE.Vector3.lerp: each component moves by alpha times the difference
toward the target. -/
def vlerp (a b : Vec3) (alpha : ℚ) : Vec3 :=
  ⟨a.x + (b.x - a.x) * alpha, a.y + (b.y - a.y) * alpha, a.z + (b.z - a.z) * alpha⟩

/-- The three basis columns produced by THREE.Matrix4.lookAt(eye, target, up),
including both degenerate-direction fallbacks of the library. Only the
rotation part of the matrix is ever populated by lookAt, and the matrix it
is applied to here starts as the identity, so the three columns fully
describe its action on a vector. -/
def m4LookAtBasis (sq : ℚ → ℚ) (eye target up : Vec3) : Vec3 × Vec3 × Vec3 :=
  let z0 := vsub eye target
  let z1 := if lengthSq z0 = 0 then { z0 with z := 1 } else z0
  let z2 := vnormalize sq z1
  let x0 := cross up z2
  let zx : Vec3 × Vec3 :=
    if lengthSq x0 = 0 then
      let z3 :=
        if |up.z| = 1 then { z2 with x := z2.x + 1/10000 }
        else { z2 with z := z2.z + 1/10000 }
      let z4 := vnormalize sq z3
      (z4, cross up z4)
    else (z2, x0)
  let x1 := vnormalize sq zx.2
  let y1 := cross zx.1 x1
  (x1, y1, zx.1)

/-- Application of a basis matrix with zero translation and unit last row to
a vector: THREE.Vector3.applyMatrix4 with such a matrix mixes the three
columns by the components of the vector. -/
def applyBasis (bas : Vec3 × Vec3 × Vec3) (v : Vec3) : Vec3 :=
  vadd (vadd (vscale v.x bas.1) (vscale v.y bas.2.1)) (vscale v.z bas.2.2)

/-- Transform state of the Jax group written by the frame callback: the
group position, the argument of the lookAt call that orients the group, and
the additional wobble added to the y rotation afterwards. -/
structure JaxState where
  position : Vec3
  lookTarget : Vec3
  spinDeltaY : ℚ
deriving DecidableEq

/-- Transform state of the Nino group written by the frame callback. -/
structure NinoState where
  position : Vec3
  rotY : ℚ
  rotZ : ℚ
deriving DecidableEq

/-- Transform state of the tool bag group written by the frame callback. -/
structure ToolBagState where
  position : Vec3
  rotZ : ℚ
deriving DecidableEq

/-- Camera state: its position and the argument of the camera lookAt call
that fully determines its orientation together with the position. -/
structure CameraState where
  position : Vec3
  lookTarget : Vec3
deriving DecidableEq

/-- One instance written by GrassField: the dummy position, the dummy scale
and the raw rotation draw (the y rotation is that draw times pi). -/
structure GrassInstance where
  position : Vec3
  scale : Vec3
  rotYRaw : ℚ
deriving DecidableEq

/-- One placement of StoneScatter or MiniTrees. -/
structure ScatterItem where
  position : Vec3
  scale : ℚ
deriving DecidableEq

/-- Observable state of the scene: the immutable precomputed data (curve
control points, road geometry buffers, scenery placements) together with
the transient per-frame transforms, the cached progress value and the
recorded start time of the animation. -/
structure World where
  curvePoints : List Vec3
  roadPositions : List ℚ
  roadUvs : List ℚ
  grass : List GrassInstance
  stones : List ScatterItem
  trees : List ScatterItem
  jax : JaxState
  nino : NinoState
  toolBag : ToolBagState
  camera : CameraState
  cachedProgress : ℚ
  startTime : Option ℚ

/-- The two sampling functions of the CatmullRomCurve3 instance used by the
frame callback, passed in abstractly: getPointAt and getTangentAt. -/
structure CurveFns where
  pointAt : ℚ → Vec3
  tangentAt : ℚ → Vec3

/-- The host math functions used by the frame callback that are not exact
rational operations. The trigonometric functions are applied to the same
rational arguments the source passes to Math.sin, Math.cos and Math.atan2. -/
structure MathFns where
  sqrt : ℚ → ℚ
  pow : ℚ → ℚ → ℚ
  sin : ℚ → ℚ
  cos : ℚ → ℚ
  atan2 : ℚ → ℚ → ℚ

/-- The fixed camera offset (-1.25, 0.62, 1.4) of SceneContent. -/
def cameraOffset : Vec3 := ⟨-5/4, 31/50, 7/5⟩

/-- The five control points of the CatmullRomCurve3 of SceneContent. -/
def curveControlPoints : List Vec3 :=
  [⟨-53/10, 3/25, 31/10⟩, ⟨-23/10, 2/25, 7/5⟩, ⟨2/5, 3/50, 3/10⟩,
   ⟨31/10, 1/20, -3/5⟩, ⟨31/5, 1/25, -3/2⟩]

/-- The useFrame callback of SceneContent (SceneCanvas.tsx lines 54 to 101):
records the start time on the first frame, computes the eased progress,
reports it through onProgress when it moved by more than 0.001 from the
cached value, places Jax and Nino on the curve, and updates the tool bag
and the camera. The returned option is the value passed to onProgress on
this frame, if any. -/
def frameUpdate (c : CurveFns) (m : MathFns) (w : World) (clockTime delta : ℚ) :
    World × Option ℚ :=
  let start := w.startTime.getD clockTime
  let elapsed := clockTime - start
  let eased := easedAt start clockTime
  let report : Option ℚ :=
    if 1/1000 < |w.cachedProgress - eased| then some eased else none
  let cached := if 1/1000 < |w.cachedProgress - eased| then eased else w.cachedProgress
  let jaxProgress := eased
  let ninoProgress := ninoOf eased
  let jaxPosition := c.pointAt jaxProgress
  let ninoPosition := c.pointAt ninoProgress
  let tangent := vnormalize m.sqrt (c.tangentAt jaxProgress)
  let jax : JaxState :=
    { position := { jaxPosition with y := jaxPosition.y + m.sin (elapsed * 6) * (3/125) },
      lookTarget := vaddScaled jaxPosition tangent (4/5),
      spinDeltaY := m.sin (elapsed * 12) * (1/50) }
  let nino : NinoState :=
    { position :=
        { ninoPosition with y := ninoPosition.y + (4/25 + m.sin (elapsed * 7 + 9/5) * (1/20)) },
      rotY := m.atan2 tangent.x tangent.z + m.sin (elapsed * 8) * (9/50),
      rotZ := m.sin (elapsed * 10) * (3/25) }
  let toolBag : ToolBagState :=
    { position := ⟨-11/50, 1/4, -7/50⟩,
      rotZ := m.sin (elapsed * 12) * (7/25) + mathLerp (7/10) (2/25) eased }
  let cameraTarget := vadd jaxPosition ⟨0, 9/20, 0⟩
  let basis := m4LookAtBasis m.sqrt ⟨0, 0, 0⟩ tangent ⟨0, 1, 0⟩
  let desired := vadd jaxPosition (applyBasis basis cameraOffset)
  let alpha := 1 - m.pow (1/10000) delta
  let camera : CameraState :=
    { position := vlerp w.camera.position desired alpha, lookTarget := cameraTarget }
  ({ w with jax := jax, nino := nino, toolBag := toolBag, camera := camera,
            cachedProgress := cached, startTime := some start }, report)

/-- The Nino path parameter always lies in [0, 1]. -/
lemma ninoOf_mem01 (p : ℚ) : 0 ≤ ninoOf p ∧ ninoOf p ≤ 1 := by
  unfold ninoOf
  constructor
  · exact le_min (mul_nonneg (le_max_right _ _) (by norm_num)) (by norm_num)
  · exact (min_le_right _ _).trans (by norm_num)

/-- C2: on every frame, the base positions of Jax and Nino are values of the
pointAt sampling function of the single fixed curve at parameters in [0, 1]
(the written group positions differ from those base positions only by a
vertical bobbing offset), so both characters travel along the same curved
path for the whole animation. -/
theorem c2_characters_on_curve (c : CurveFns) (m : MathFns) (w : World) (t δ : ℚ) :
    0 ≤ easedAt (w.startTime.getD t) t ∧ easedAt (w.startTime.getD t) t ≤ 1 ∧
    0 ≤ ninoOf (easedAt (w.startTime.getD t) t) ∧
    ninoOf (easedAt (w.startTime.getD t) t) ≤ 1 ∧
    (frameUpdate c m w t δ).1.jax.position =
      vadd (c.pointAt (easedAt (w.startTime.getD t) t))
        ⟨0, m.sin ((t - w.startTime.getD t) * 6) * (3/125), 0⟩ ∧
    (frameUpdate c m w t δ).1.nino.position =
      vadd (c.pointAt (ninoOf (easedAt (w.startTime.getD t) t)))
        ⟨0, 4/25 + m.sin ((t - w.startTime.getD t) * 7 + 9/5) * (1/20), 0⟩ := by
  obtain ⟨he0, he1⟩ := easedAt_mem (w.startTime.getD t) t
  obtain ⟨hn0, hn1⟩ := ninoOf_mem01 (easedAt (w.startTime.getD t) t)
  refine ⟨he0, he1, hn0, hn1, ?_, ?_⟩ <;> simp [frameUpdate, vadd]

/-- Camera look target as worded by the specification claim: the point
exactly 0.45 above the current path position of Jax. -/
def specCameraLookTarget (c : CurveFns) (start t : ℚ) : Vec3 :=
  vadd (c.pointAt (easedAt start t)) ⟨0, 9/20, 0⟩

/-- Desired camera position as worded by the specification claim: the fixed
offset (-1.25, 0.62, 1.4) expressed in the basis aligned with the path
tangent at the parameter of Jax, added to the path position of Jax. -/
def specCameraDesired (c : CurveFns) (m : MathFns) (start t : ℚ) : Vec3 :=
  vadd (c.pointAt (easedAt start t))
    (applyBasis
      (m4LookAtBasis m.sqrt ⟨0, 0, 0⟩
        (vnormalize m.sqrt (c.tangentAt (easedAt start t))) ⟨0, 1, 0⟩)
      cameraOffset)

/-- Interpolation factor as worded by the specification claim:
1 - 0.0001 ^ delta for frame time delta. -/
def specLerpFactor (m : MathFns) (delta : ℚ) : ℚ := 1 - m.pow (1/10000) delta

/-- C7: on every frame the camera-follow routine points the camera at the
point exactly 0.45 above the current path position of Jax, and moves the
camera position toward the desired offset position by the factor
1 - 0.0001 ^ delta. -/
theorem c7_camera_follow (c : CurveFns) (m : MathFns) (w : World) (t δ : ℚ) :
    (frameUpdate c m w t δ).1.camera.lookTarget =
      specCameraLookTarget c (w.startTime.getD t) t ∧
    (frameUpdate c m w t δ).1.camera.position =
      vlerp w.camera.position (specCameraDesired c m (w.startTime.getD t) t)
        (specLerpFactor m δ) := by
  exact ⟨rfl, rfl⟩

/-- Initial world of the scene: the five curve control points of the source,
the camera at its initial position (-4, 1.2, 4), zeroed transforms, cached
progress 0 and no recorded start time. -/
def sceneInitialWorld : World where
  curvePoints := curveControlPoints
  roadPositions := []
  roadUvs := []
  grass := []
  stones := []
  trees := []
  jax := ⟨⟨0, 0, 0⟩, ⟨0, 0, 0⟩, 0⟩
  nino := ⟨⟨0, 0, 0⟩, 0, 0⟩
  toolBag := ⟨⟨0, 0, 0⟩, 0⟩
  camera := ⟨⟨-4, 6/5, 4⟩, ⟨0, 0, 0⟩⟩
  cachedProgress := 0
  startTime := none

/-- The initial world two seconds into the animation, with a recorded start
time, used for concrete evaluations. -/
def sceneRunningWorld : World := { sceneInitialWorld with startTime := some 2 }

/-- Point sampler of a sample curve used for concrete evaluations: the
straight line along the x axis. -/
def linePointAt : ℚ → Vec3 := fun u => ⟨u, 0, 0⟩

/-- Tangent sampler of the sample curve: the constant unit x direction. -/
def lineTangentAt : ℚ → Vec3 := fun _ => ⟨1, 0, 0⟩

/-- Sample curve oracle for concrete evaluations: the straight line along
the x axis with constant unit tangent. -/
def lineCurveFns : CurveFns := ⟨linePointAt, lineTangentAt⟩

/-- Sample host math functions for concrete evaluations: a square root
function correct on the inputs 0 and 1, and constant power and
trigonometric functions. -/
def sampleMathFns : MathFns :=
  ⟨fun q => if q = 1 then 1 else 0, fun _ _ => 0, fun _ => 0, fun _ => 1, fun _ _ => 0⟩

/-- C8 (amended): the per-frame animation update leaves the curve control
points, the road geometry buffers and the precomputed scenery placements
unchanged on every frame, and beyond the transforms of the Jax group, the
Nino group, the tool bag group and the camera it writes only the cached
progress value and, on the first frame, the recorded start time; once the
start time is recorded it is never changed. -/
theorem c8_frame_mutation_scope (c : CurveFns) (m : MathFns) (w : World) (t δ : ℚ) :
    (frameUpdate c m w t δ).1.curvePoints = w.curvePoints ∧
    (frameUpdate c m w t δ).1.roadPositions = w.roadPositions ∧
    (frameUpdate c m w t δ).1.roadUvs = w.roadUvs ∧
    (frameUpdate c m w t δ).1.grass = w.grass ∧
    (frameUpdate c m w t δ).1.stones = w.stones ∧
    (frameUpdate c m w t δ).1.trees = w.trees ∧
    (∀ s0 : ℚ, w.startTime = some s0 → (frameUpdate c m w t δ).1.startTime = some s0) := by
  refine ⟨rfl, rfl, rfl, rfl, rfl, rfl, ?_⟩
  intro s0 h
  show some (w.startTime.getD t) = some s0
  rw [h]
  rfl

/-- Witness for C8 on the running world at clock time 5. -/
theorem c8_frame_mutation_scope_witness :
    (frameUpdate lineCurveFns sampleMathFns sceneRunningWorld 5 0).1.curvePoints =
      sceneRunningWorld.curvePoints ∧
    (frameUpdate lineCurveFns sampleMathFns sceneRunningWorld 5 0).1.startTime = some 2 :=
  ⟨(c8_frame_mutation_scope lineCurveFns sampleMathFns sceneRunningWorld 5 0).1,
    (c8_frame_mutation_scope lineCurveFns sampleMathFns sceneRunningWorld 5 0).2.2.2.2.2.2
      2 rfl⟩

/-- Counterexample for C8 as stated: on the first frame the update also
mutates the recorded start time, which is neither one of the listed
transient transforms nor the cached progress value. At clock time 5 on the
initial world the start time changes from none to some 5. -/
theorem c8_counterexample :
    sceneInitialWorld.startTime = none ∧
    (frameUpdate lineCurveFns sampleMathFns sceneInitialWorld 5 0).1.startTime = some 5 ∧
    (frameUpdate lineCurveFns sampleMathFns sceneInitialWorld 5 0).1.startTime ≠
      sceneInitialWorld.startTime := by
  refine ⟨rfl, rfl, ?_⟩
  intro h
  simpa [frameUpdate, sceneInitialWorld] using h

/-- Runs the frame callback over a list of (clock time, delta) frames,
collecting the values passed to onProgress in order. -/
def runFrames (c : CurveFns) (m : MathFns) : World → List (ℚ × ℚ) → World × List ℚ
  | w, [] => (w, [])
  | w, f :: fs =>
    let step := frameUpdate c m w f.1 f.2
    let rest := runFrames c m step.1 fs
    (rest.1, step.2.toList ++ rest.2)

/-- The frame update keeps a recorded start time. -/
lemma frameUpdate_startTime_of_some (c : CurveFns) (m : MathFns) (w : World)
    (t δ s0 : ℚ) (h : w.startTime = some s0) :
    (frameUpdate c m w t δ).1.startTime = some s0 := by
  show some (w.startTime.getD t) = some s0
  rw [h]
  rfl

/-- Cached progress written by the frame update, in terms of the eased value. -/
lemma frameUpdate_cached (c : CurveFns) (m : MathFns) (w : World) (t δ : ℚ) :
    (frameUpdate c m w t δ).1.cachedProgress =
      if 1/1000 < |w.cachedProgress - easedAt (w.startTime.getD t) t| then
        easedAt (w.startTime.getD t) t
      else w.cachedProgress := rfl

/-- Report emitted by the frame update, in terms of the eased value. -/
lemma frameUpdate_report (c : CurveFns) (m : MathFns) (w : World) (t δ : ℚ) :
    (frameUpdate c m w t δ).2 =
      if 1/1000 < |w.cachedProgress - easedAt (w.startTime.getD t) t| then
        some (easedAt (w.startTime.getD t) t)
      else none := rfl

/-- Invariant step for the reported progress values: from a world with a
recorded start time and a cached progress in [0, 1] that is below the eased
value of every upcoming frame, the reported values are sorted, bounded by
[0, 1] and at least the cached progress. -/
lemma runFrames_reports_aux (c : CurveFns) (m : MathFns) :
    ∀ (fs : List (ℚ × ℚ)) (w : World) (s0 : ℚ),
      w.startTime = some s0 →
      0 ≤ w.cachedProgress → w.cachedProgress ≤ 1 →
      (∀ f ∈ fs, w.cachedProgress ≤ easedAt s0 f.1) →
      (fs.map Prod.fst).Sorted (· ≤ ·) →
      (runFrames c m w fs).2.Sorted (· ≤ ·) ∧
        ∀ x ∈ (runFrames c m w fs).2, w.cachedProgress ≤ x ∧ 0 ≤ x ∧ x ≤ 1 := by
  intro fs
  induction fs with
  | nil =>
    intro w s0 _ _ _ _ _
    exact ⟨List.sorted_nil, by intro x hx; cases hx⟩
  | cons f fs ih =>
    intro w s0 hst hc0 hc1 hfut hsorted
    rw [List.map_cons, List.sorted_cons] at hsorted
    obtain ⟨hhead, htail⟩ := hsorted
    set w2 := (frameUpdate c m w f.1 f.2).1 with hw2
    have hst2 : w2.startTime = some s0 := frameUpdate_startTime_of_some c m w f.1 f.2 s0 hst
    have heased := easedAt_mem s0 f.1
    have hcle : w.cachedProgress ≤ easedAt s0 f.1 := hfut f (List.mem_cons_self f fs)
    have hgetD : w.startTime.getD f.1 = s0 := by rw [hst]; rfl
    have hfut2 : ∀ g ∈ fs, w2.cachedProgress ≤ easedAt s0 g.1 := by
      intro g hg
      rw [hw2, frameUpdate_cached, hgetD]
      split
      · exact easedAt_mono s0 f.1 g.1 (by
          have := hhead g.1 (List.mem_map_of_mem Prod.fst hg)
          exact this)
      · exact hfut g (List.mem_cons_of_mem f hg)
    have hc02 : 0 ≤ w2.cachedProgress := by
      rw [hw2, frameUpdate_cached, hgetD]
      split
      · exact heased.1
      · exact hc0
    have hc12 : w2.cachedProgress ≤ 1 := by
      rw [hw2, frameUpdate_cached, hgetD]
      split
      · exact heased.2
      · exact hc1
    obtain ⟨hrs, hrb⟩ := ih w2 s0 hst2 hc02 hc12 hfut2 htail
    have hrun : (runFrames c m w (f :: fs)).2 =
        (frameUpdate c m w f.1 f.2).2.toList ++ (runFrames c m w2 fs).2 := rfl
    rw [hrun, frameUpdate_report, hgetD]
    have hcached2 : w.cachedProgress ≤ w2.cachedProgress := by
      rw [hw2, frameUpdate_cached, hgetD]
      split
      · exact hcle
      · exact le_refl _
    split
    · constructor
      · rw [Option.toList_some, List.singleton_append, List.sorted_cons]
        refine ⟨?_, hrs⟩
        intro b hb
        exact le_trans (by
          have := (hrb b hb).1
          rw [hw2, frameUpdate_cached, hgetD] at this
          rw [if_pos (by assumption)] at this
          exact this) (le_refl b)
      · intro x hx
        rw [Option.toList_some, List.singleton_append, List.mem_cons] at hx
        rcases hx with rfl | hx
        · exact ⟨hcle, heased.1, heased.2⟩
        · obtain ⟨h1, h2, h3⟩ := hrb x hx
          exact ⟨le_trans hcached2 h1, h2, h3⟩
    · rw [Option.toList_none, List.nil_append]
      refine ⟨hrs, ?_⟩
      intro x hx
      obtain ⟨h1, h2, h3⟩ := hrb x hx
      exact ⟨le_trans hcached2 h1, h2, h3⟩

/-- C3: the eased progress is a monotone non-decreasing function of the
clock time, equal to 0 at the recorded start time and equal to 1 once
eight seconds have elapsed, and always lies in [0, 1]; consequently, over
any sequence of frames with non-decreasing clock times starting from the
initial world, the sequence of values passed to onProgress is
non-decreasing and every reported value lies in [0, 1]. -/
theorem c3_progress_monotone (c : CurveFns) (m : MathFns) (fs : List (ℚ × ℚ))
    (w : World) (start t u : ℚ)
    (hw0 : w.cachedProgress = 0) (hwst : w.startTime = none)
    (htu : t ≤ u) (hs : (fs.map Prod.fst).Sorted (· ≤ ·)) :
    easedAt start t ≤ easedAt start u ∧
    easedAt start start = 0 ∧
    (start + 8 ≤ u → easedAt start u = 1) ∧
    (0 ≤ easedAt start t ∧ easedAt start t ≤ 1) ∧
    (runFrames c m w fs).2.Sorted (· ≤ ·) ∧
    ∀ x ∈ (runFrames c m w fs).2, 0 ≤ x ∧ x ≤ 1 := by
  refine ⟨easedAt_mono start t u htu, easedAt_self start,
    fun h => easedAt_saturated start u (by linarith), easedAt_mem start t, ?_⟩
  cases fs with
  | nil => exact ⟨List.sorted_nil, by intro x hx; cases hx⟩
  | cons f fs =>
    rw [List.map_cons, List.sorted_cons] at hs
    obtain ⟨hhead, htail⟩ := hs
    set w2 := (frameUpdate c m w f.1 f.2).1 with hw2
    have hgetD : w.startTime.getD f.1 = f.1 := by rw [hwst]; rfl
    have heq0 : easedAt f.1 f.1 = 0 := easedAt_self f.1
    have hnone : ¬ (1/1000 < |w.cachedProgress - easedAt (w.startTime.getD f.1) f.1|) := by
      rw [hgetD, heq0, hw0]
      norm_num
    have hst2 : w2.startTime = some f.1 := by
      show some (w.startTime.getD f.1) = some f.1
      rw [hgetD]
    have hc2 : w2.cachedProgress = 0 := by
      rw [hw2, frameUpdate_cached, if_neg hnone, hw0]
    have hfut2 : ∀ g ∈ fs, w2.cachedProgress ≤ easedAt f.1 g.1 := by
      intro g hg
      rw [hc2]
      exact (easedAt_mem f.1 g.1).1
    obtain ⟨hrs, hrb⟩ := runFrames_reports_aux c m fs w2 f.1 hst2
      (by rw [hc2]) (by rw [hc2]; norm_num) hfut2 htail
    have hrun : (runFrames c m w (f :: fs)).2 =
        (frameUpdate c m w f.1 f.2).2.toList ++ (runFrames c m w2 fs).2 := rfl
    rw [hrun, frameUpdate_report, if_neg hnone, Option.toList_none, List.nil_append]
    exact ⟨hrs, fun x hx => ⟨(hrb x hx).2.1, (hrb x hx).2.2⟩⟩

/-- Witness for C3 on the frame times 0, 2, 9 from the initial world. -/
theorem c3_progress_monotone_witness :
    (1 : ℚ) ≤ 9 ∧
    (runFrames lineCurveFns sampleMathFns sceneInitialWorld
      [(0, 0), (2, 0), (9, 0)]).2.Sorted (· ≤ ·) :=
  ⟨by norm_num,
    (c3_progress_monotone lineCurveFns sampleMathFns [(0, 0), (2, 0), (9, 0)]
      sceneInitialWorld 0 1 9 rfl rfl (by norm_num) (by decide)).2.2.2.2.1⟩

/-- ROAD_WIDTH constant of SceneCanvas.tsx. -/
def ROAD_WIDTH : ℚ := 9/10

/-- Dot product of two vectors. -/
def dot (a b : Vec3) : ℚ := a.x * b.x + a.y * b.y + a.z * b.z

/-- Difference of the two curve samples of road division i: the sample at
min(t + 1/89, 1) minus the sample at t, where t = i / 89 and 89 is
divisions - 1. -/
def roadDiff (pointAt : ℚ → Vec3) (i : ℕ) : Vec3 :=
  vsub (pointAt (min ((i : ℚ) / 89 + 1/89) 1)) (pointAt ((i : ℚ) / 89))

/-- Normalised local direction of road division i. -/
def roadDir (pointAt : ℚ → Vec3) (sq : ℚ → ℚ) (i : ℕ) : Vec3 :=
  vnormalize sq (roadDiff pointAt i)

/-- Horizontal perpendicular (dir.z, 0, -dir.x) of the local direction of
road division i. -/
def roadPerp (pointAt : ℚ → Vec3) (sq : ℚ → ℚ) (i : ℕ) : Vec3 :=
  ⟨(roadDir pointAt sq i).z, 0, -(roadDir pointAt sq i).x⟩

/-- Offset vector of road division i: the normalised horizontal
perpendicular scaled by ROAD_WIDTH. -/
def roadRight (pointAt : ℚ → Vec3) (sq : ℚ → ℚ) (i : ℕ) : Vec3 :=
  vscale ROAD_WIDTH (vnormalize sq (roadPerp pointAt sq i))

/-- The quad layout of one road division as worded by the claim: two
triangles (tl, bl, br) and (tl, br, tr) over the corners obtained from the
two curve samples offset by plus and minus the offset vector, every vertex
raised 0.002 in y. -/
def specRoadQuadFloats (currentPt nextPt off : Vec3) : List ℚ :=
  let tl := vadd currentPt off
  let bl := vsub currentPt off
  let tr := vadd nextPt off
  let br := vsub nextPt off
  [tl.x, tl.y + 1/500, tl.z, bl.x, bl.y + 1/500, bl.z, br.x, br.y + 1/500, br.z,
   tl.x, tl.y + 1/500, tl.z, br.x, br.y + 1/500, br.z, tr.x, tr.y + 1/500, tr.z]

/-- The 18 position floats pushed for road division i by the Road
component. -/
def roadSegFloats (pointAt : ℚ → Vec3) (sq : ℚ → ℚ) (i : ℕ) : List ℚ :=
  specRoadQuadFloats (pointAt ((i : ℚ) / 89)) (pointAt (min ((i : ℚ) / 89 + 1/89) 1))
    (roadRight pointAt sq i)

/-- The 12 uv floats pushed for every road division. -/
def roadSegUvs : List ℚ := [1, 0, 0, 0, 0, 1, 1, 0, 0, 1, 1, 1]

/-- The position attribute data of the Road geometry: 90 divisions. -/
def roadPositionsList (pointAt : ℚ → Vec3) (sq : ℚ → ℚ) : List ℚ :=
  ((List.range 90).map (roadSegFloats pointAt sq)).join

/-- The uv attribute data of the Road geometry: 90 divisions. -/
def roadUvsList : List ℚ := ((List.range 90).map (fun _ => roadSegUvs)).join

/-- A value s is the square root of v when it is nonnegative and squares
to v. -/
def IsSqrtOf (sq : ℚ → ℚ) (v : ℚ) : Prop := 0 ≤ sq v ∧ sq v * sq v = v

/-- Squared length scales with the square of a scalar factor. -/
lemma lengthSq_vscale (c : ℚ) (v : Vec3) : lengthSq (vscale c v) = c ^ 2 * lengthSq v := by
  unfold lengthSq vscale
  ring

/-- The road offset vector is horizontal and perpendicular to the local
direction, with no hypotheses. -/
lemma roadRight_perp (pointAt : ℚ → Vec3) (sq : ℚ → ℚ) (i : ℕ) :
    (roadRight pointAt sq i).y = 0 ∧
      dot (roadRight pointAt sq i) (roadDir pointAt sq i) = 0 := by
  unfold roadRight roadPerp vnormalize
  split <;> constructor <;> simp [vscale, dot, lengthSq] <;> ring

/-- Under a correct square root at the squared length of the perpendicular,
and when that squared length is nonzero, the road offset vector has squared
length exactly (9/10)^2 = 81/100. -/
lemma roadRight_lengthSq (pointAt : ℚ → Vec3) (sq : ℚ → ℚ) (i : ℕ)
    (hgood : IsSqrtOf sq (lengthSq (roadPerp pointAt sq i)))
    (hne : lengthSq (roadPerp pointAt sq i) ≠ 0) :
    lengthSq (roadRight pointAt sq i) = 81/100 := by
  obtain ⟨hnn, hsqr⟩ := hgood
  have hs0 : sq (lengthSq (roadPerp pointAt sq i)) ≠ 0 := by
    intro h
    rw [h] at hsqr
    exact hne (by linarith)
  unfold roadRight vnormalize
  rw [if_neg hs0, lengthSq_vscale, lengthSq_vscale, ROAD_WIDTH]
  field_simp
  linarith [hsqr]

/-- In the last road division both curve samples are taken at parameter 1,
so their difference is zero for every curve oracle. -/
lemma roadDiff_89 (pointAt : ℚ → Vec3) : roadDiff pointAt 89 = ⟨0, 0, 0⟩ := by
  unfold roadDiff
  have h1 : ((89 : ℕ) : ℚ) / 89 = 1 := by norm_num
  have h2 : min (((89 : ℕ) : ℚ) / 89 + 1/89) 1 = 1 := by
    rw [h1]
    exact min_eq_right (by norm_num)
  rw [h2, h1]
  simp [vsub]

/-- The local direction of the last road division is the zero vector. -/
lemma roadDir_89 (pointAt : ℚ → Vec3) (sq : ℚ → ℚ) :
    roadDir pointAt sq 89 = ⟨0, 0, 0⟩ := by
  unfold roadDir vnormalize
  rw [roadDiff_89]
  split
  · rfl
  · simp [vscale]

/-- The horizontal perpendicular of the last road division is zero. -/
lemma roadPerp_89 (pointAt : ℚ → Vec3) (sq : ℚ → ℚ) :
    roadPerp pointAt sq 89 = ⟨0, 0, 0⟩ := by
  unfold roadPerp
  rw [roadDir_89]
  simp

/-- The offset vector of the last road division is zero for every curve
oracle and every square root function: the division is degenerate. -/
lemma roadRight_89 (pointAt : ℚ → Vec3) (sq : ℚ → ℚ) :
    roadRight pointAt sq 89 = ⟨0, 0, 0⟩ := by
  unfold roadRight vnormalize
  rw [roadPerp_89]
  split <;> simp [vscale]

set_option maxRecDepth 4000 in
/-- The length of the position buffer of the road is 1620. -/
lemma roadPositionsList_length (pointAt : ℚ → Vec3) (sq : ℚ → ℚ) :
    (roadPositionsList pointAt sq).length = 1620 := by
  unfold roadPositionsList
  rw [List.length_join, List.map_map]
  have h : (List.length ∘ roadSegFloats pointAt sq) = fun _ : ℕ => 18 := by
    funext i
    rfl
  rw [h]
  decide

/-- The length of the uv buffer of the road is 1080. -/
lemma roadUvsList_length : roadUvsList.length = 1080 := by
  unfold roadUvsList
  rw [List.length_join, List.map_map]
  have h : (List.length ∘ fun _ : ℕ => roadSegUvs) = fun _ : ℕ => 12 := by
    funext i
    rfl
  rw [h]
  decide

/-- C4 (amended): the Road geometry is generated from 90 divisions; each
division contributes two triangles (6 vertices, 18 position floats, 12 uv
floats) over the quad whose corners are the two curve samples of the
division offset by plus and minus the horizontal perpendicular of the local
direction, each vertex raised 0.002 in y, giving a position attribute of
exactly 1620 floats; for every division whose perpendicular is nonzero and
whose square root is computed correctly the offset has length exactly 0.9
(ROAD_WIDTH), but in the last division (i = 89) both curve samples coincide
at parameter 1, so its offset is the zero vector and its quad degenerates
to the single raised curve point. -/
theorem c4_road_geometry (pointAt : ℚ → Vec3) (sq : ℚ → ℚ) (i : ℕ)
    (hi : i < 90)
    (hgood : IsSqrtOf sq (lengthSq (roadPerp pointAt sq i)))
    (hne : lengthSq (roadPerp pointAt sq i) ≠ 0) :
    (roadPositionsList pointAt sq).length = 1620 ∧
    roadUvsList.length = 1080 ∧
    (roadSegFloats pointAt sq i).length = 18 ∧
    roadSegUvs.length = 12 ∧
    roadSegFloats pointAt sq i =
      specRoadQuadFloats (pointAt ((i : ℚ) / 89))
        (pointAt (min ((i : ℚ) / 89 + 1/89) 1)) (roadRight pointAt sq i) ∧
    lengthSq (roadRight pointAt sq i) = 81/100 ∧
    (roadRight pointAt sq i).y = 0 ∧
    dot (roadRight pointAt sq i) (roadDir pointAt sq i) = 0 ∧
    roadRight pointAt sq 89 = ⟨0, 0, 0⟩ := by
  obtain ⟨hy, hdot⟩ := roadRight_perp pointAt sq i
  exact ⟨roadPositionsList_length pointAt sq, roadUvsList_length, rfl, rfl, rfl,
    roadRight_lengthSq pointAt sq i hgood hne, hy, hdot, roadRight_89 pointAt sq⟩

/-- Square root function used for concrete road evaluations: correct on
the inputs 0, 1/7921 and 1, which are the only values division 0 and
division 89 of the straight-line curve feed to it. -/
def lineSqrt : ℚ → ℚ :=
  fun q => if q = 1/7921 then 1/89 else if q = 1 then 1 else 0

/-- The curve-sample difference of division 0 on the straight line. -/
lemma roadDiff_line_0 : roadDiff linePointAt 0 = ⟨1/89, 0, 0⟩ := by
  unfold roadDiff linePointAt vsub
  have h0 : ((0 : ℕ) : ℚ) / 89 = 0 := by norm_num
  have hmin : min (((0 : ℕ) : ℚ) / 89 + 1/89) 1 = 1/89 := by
    rw [h0, zero_add]
    exact min_eq_left (by norm_num)
  rw [hmin, h0]
  norm_num

/-- The local direction of division 0 on the straight line. -/
lemma roadDir_line_0 : roadDir linePointAt lineSqrt 0 = ⟨1, 0, 0⟩ := by
  unfold roadDir vnormalize
  rw [roadDiff_line_0]
  have hl : lengthSq ⟨1/89, 0, 0⟩ = 1/7921 := by unfold lengthSq; norm_num
  rw [hl]
  have hs : lineSqrt (1/7921) = 1/89 := by unfold lineSqrt; norm_num
  rw [hs, if_neg (by norm_num : ¬ (1/89 : ℚ) = 0)]
  unfold vscale
  norm_num

/-- The horizontal perpendicular of division 0 on the straight line. -/
lemma roadPerp_line_0 : roadPerp linePointAt lineSqrt 0 = ⟨0, 0, -1⟩ := by
  unfold roadPerp
  rw [roadDir_line_0]

/-- Witness for C4: division 0 of the straight-line curve with a square
root function correct on the values that division uses. -/
theorem c4_road_geometry_witness :
    (0 < 90 ∧
      IsSqrtOf lineSqrt (lengthSq (roadPerp linePointAt lineSqrt 0)) ∧
      lengthSq (roadPerp linePointAt lineSqrt 0) ≠ 0) ∧
    lengthSq (roadRight linePointAt lineSqrt 0) = 81/100 := by
  have hl : lengthSq (roadPerp linePointAt lineSqrt 0) = 1 := by
    rw [roadPerp_line_0]
    unfold lengthSq
    norm_num
  have hgood : IsSqrtOf lineSqrt (lengthSq (roadPerp linePointAt lineSqrt 0)) := by
    rw [hl]
    constructor
    · unfold lineSqrt; norm_num
    · unfold lineSqrt; norm_num
  have hne : lengthSq (roadPerp linePointAt lineSqrt 0) ≠ 0 := by
    rw [hl]; norm_num
  exact ⟨⟨by norm_num, hgood, hne⟩,
    (c4_road_geometry linePointAt lineSqrt 0 (by norm_num) hgood hne).2.2.2.2.2.1⟩

/-- Counterexample for C4 as stated: in the last division (i = 89) the
offset vector is zero, not a vector of length 0.9, even though the square
root function is correct at the only input used there; so not every one of
the 90 divisions has its edges offset by a perpendicular of length 0.9. -/
theorem c4_counterexample :
    roadRight linePointAt lineSqrt 89 = ⟨0, 0, 0⟩ ∧
    lengthSq (roadRight linePointAt lineSqrt 89) ≠ 81/100 ∧
    IsSqrtOf lineSqrt (lengthSq (roadPerp linePointAt lineSqrt 89)) := by
  refine ⟨roadRight_89 _ _, ?_, ?_⟩
  · rw [roadRight_89]
    unfold lengthSq
    norm_num
  · rw [roadPerp_89]
    have hl : lengthSq ⟨0, 0, 0⟩ = 0 := by unfold lengthSq; norm_num
    rw [hl]
    constructor
    · unfold lineSqrt; norm_num
    · unfold lineSqrt; norm_num

/-- Value returned by one generator call made while the state is v: the
state advances to rngNext v and the call returns (state - 1) / 2147483646. -/
def randVal (v : ℕ) : ℚ := ((rngNext v : ℚ) - 1) / 2147483646

/-- A distance draw with value w forces acceptance in the grass loop: it
makes the squared distance large enough that the sampled point lies outside
the rejection corridor for every pair of trigonometric values whose squares
sum to at least 99/100. The inequality is the exact integer form of
(w - 1)^2 / 2147483646^2 being at least 421700 / 527571. -/
def forcedDraw (w : ℕ) : Bool :=
  decide (421700 * (2147483646 : ℤ) ^ 2 ≤ 527571 * ((w : ℤ) - 1) ^ 2)

/-- Number of forced distance draws among the first m draw pairs from
state v: each iteration of the grass loop consumes draws in pairs, and the
distance draw is the second value of a pair. -/
def forcedCount (v : ℕ) : ℕ → ℕ
  | 0 => 0
  | m + 1 =>
    (if forcedDraw (rngNext (rngNext v)) then 1 else 0) +
      forcedCount (rngNext (rngNext v)) m

/-- State after advancing m draw pairs. -/
def rngIter : ℕ → ℕ → ℕ
  | 0, v => v
  | m + 1, v => rngIter m (rngNext (rngNext v))

/-- Evaluation form of rngIter that forces every intermediate state to a
numeral so that kernel reduction stays shallow. -/
def rngIterF : ℕ → ℕ → ℕ
  | 0, v => v
  | m + 1, v =>
    match rngNext (rngNext v) with
    | 0 => rngIterF m 0
    | w + 1 => rngIterF m (w + 1)

/-- Evaluation form of forcedCount with an accumulator, forcing both the
state and the accumulator to numerals. -/
def forcedCountF : ℕ → ℕ → ℕ → ℕ
  | 0, _, acc => acc
  | m + 1, v, acc =>
    match rngNext (rngNext v) with
    | 0 => forcedCountF m 0 (acc + if forcedDraw 0 then 1 else 0)
    | w + 1 =>
      match acc + (if forcedDraw (w + 1) then 1 else 0) with
      | 0 => forcedCountF m (w + 1) 0
      | a + 1 => forcedCountF m (w + 1) (a + 1)

/-- One-step unfolding of the evaluation form of forcedCount. -/
lemma forcedCountF_succ (m v acc : ℕ) :
    forcedCountF (m + 1) v acc =
      forcedCountF m (rngNext (rngNext v))
        (acc + if forcedDraw (rngNext (rngNext v)) then 1 else 0) := by
  rcases h : rngNext (rngNext v) with _ | w
  · simp only [forcedCountF, h]
  · simp only [forcedCountF, h]
    rcases h2 : acc + (if forcedDraw (w + 1) then 1 else 0) with _ | a
    · simp only [h2]
    · simp only [h2]

/-- The evaluation form of forcedCount agrees with forcedCount. -/
lemma forcedCountF_eq (m : ℕ) : ∀ v acc, forcedCountF m v acc = acc + forcedCount v m := by
  induction m with
  | zero =>
    intro v acc
    show acc = acc + 0
    omega
  | succ m ih =>
    intro v acc
    rw [forcedCountF_succ, ih]
    show _ = acc + ((if forcedDraw (rngNext (rngNext v)) then 1 else 0) +
      forcedCount (rngNext (rngNext v)) m)
    omega

/-- The evaluation form of rngIter agrees with rngIter. -/
lemma rngIterF_eq (m : ℕ) : ∀ v, rngIterF m v = rngIter m v := by
  induction m with
  | zero => intro v; rfl
  | succ m ih =>
    intro v
    show (match rngNext (rngNext v) with
      | 0 => rngIterF m 0
      | w + 1 => rngIterF m (w + 1)) = rngIter m (rngNext (rngNext v))
    rcases h : rngNext (rngNext v) with _ | w
    · exact ih 0
    · exact ih (w + 1)

/-- Advancing a + b pairs advances a pairs and then b pairs. -/
lemma rngIter_add (a b : ℕ) : ∀ v, rngIter (a + b) v = rngIter b (rngIter a v) := by
  induction a with
  | zero =>
    intro v
    rw [Nat.zero_add]
    rfl
  | succ a ih =>
    intro v
    rw [Nat.succ_add]
    show rngIter (a + b) (rngNext (rngNext v)) = rngIter b (rngIter a (rngNext (rngNext v)))
    exact ih (rngNext (rngNext v))

/-- Splitting the forced count over a + b pairs. -/
lemma forcedCount_add (a b : ℕ) : ∀ v,
    forcedCount v (a + b) = forcedCount v a + forcedCount (rngIter a v) b := by
  induction a with
  | zero =>
    intro v
    rw [Nat.zero_add]
    show forcedCount v b = 0 + forcedCount v b
    omega
  | succ a ih =>
    intro v
    rw [Nat.succ_add]
    show (if forcedDraw (rngNext (rngNext v)) then 1 else 0) +
        forcedCount (rngNext (rngNext v)) (a + b) =
      ((if forcedDraw (rngNext (rngNext v)) then 1 else 0) +
        forcedCount (rngNext (rngNext v)) a) +
        forcedCount (rngIter a (rngNext (rngNext v))) b
    rw [ih (rngNext (rngNext v))]
    omega

/-- The forced count grows with the number of pairs. -/
lemma forcedCount_mono (m : ℕ) : ∀ v, forcedCount v m ≤ forcedCount v (m + 1) := by
  induction m with
  | zero =>
    intro v
    show 0 ≤ _
    omega
  | succ m ih =>
    intro v
    show (if forcedDraw (rngNext (rngNext v)) then 1 else 0) +
        forcedCount (rngNext (rngNext v)) m ≤
      (if forcedDraw (rngNext (rngNext v)) then 1 else 0) +
        forcedCount (rngNext (rngNext v)) (m + 1)
    have := ih (rngNext (rngNext v))
    omega

set_option maxRecDepth 200000 in
/-- Among the first 12000 draw pairs of the generator seeded with 42 there
are 1205 forced distance draws, checked by kernel computation in six
chunks of 2000 pairs. -/
lemma forcedCount_42_12000 : 1199 ≤ forcedCount 42 12000 := by
  have s1 : rngIterF 2000 42 = 722974724 := by decide
  have s2 : rngIterF 2000 722974724 = 1123074365 := by decide
  have s3 : rngIterF 2000 1123074365 = 898247566 := by decide
  have s4 : rngIterF 2000 898247566 = 1634279159 := by decide
  have s5 : rngIterF 2000 1634279159 = 355470977 := by decide
  have c1 : forcedCountF 2000 42 0 = 187 := by decide
  have c2 : forcedCountF 2000 722974724 0 = 198 := by decide
  have c3 : forcedCountF 2000 1123074365 0 = 182 := by decide
  have c4 : forcedCountF 2000 898247566 0 = 206 := by decide
  have c5 : forcedCountF 2000 1634279159 0 = 202 := by decide
  have c6 : forcedCountF 2000 355470977 0 = 230 := by decide
  rw [rngIterF_eq] at s1 s2 s3 s4 s5
  rw [forcedCountF_eq] at c1 c2 c3 c4 c5 c6
  have e1 : forcedCount 42 12000 =
      forcedCount 42 2000 + forcedCount (rngIter 2000 42) 10000 := forcedCount_add 2000 10000 42
  rw [s1] at e1
  have e2 : forcedCount 722974724 10000 =
      forcedCount 722974724 2000 + forcedCount (rngIter 2000 722974724) 8000 :=
    forcedCount_add 2000 8000 722974724
  rw [s2] at e2
  have e3 : forcedCount 1123074365 8000 =
      forcedCount 1123074365 2000 + forcedCount (rngIter 2000 1123074365) 6000 :=
    forcedCount_add 2000 6000 1123074365
  rw [s3] at e3
  have e4 : forcedCount 898247566 6000 =
      forcedCount 898247566 2000 + forcedCount (rngIter 2000 898247566) 4000 :=
    forcedCount_add 2000 4000 898247566
  rw [s4] at e4
  have e5 : forcedCount 1634279159 4000 =
      forcedCount 1634279159 2000 + forcedCount (rngIter 2000 1634279159) 2000 :=
    forcedCount_add 2000 2000 1634279159
  rw [s5] at e5
  omega

/-- Every generator state is at most 2147483646 after a step. -/
lemma rngNext_le (v : ℕ) : rngNext v ≤ 2147483646 := by
  have : rngNext v < 2147483647 := Nat.mod_lt _ (by norm_num)
  omega

/-- The square of every returned generator value is at most 1. -/
lemma randVal_sq_le_one (v : ℕ) : randVal v ^ 2 ≤ 1 := by
  unfold randVal
  rw [div_pow, div_le_one (by positivity)]
  have h1 : (rngNext v : ℚ) ≤ 2147483646 := by exact_mod_cast rngNext_le v
  have h2 : (0 : ℚ) ≤ (rngNext v : ℚ) := by positivity
  nlinarith

/-- Geometry of forced acceptance: when the distance draw of an iteration
is forced and the assumed trigonometric pair satisfies the Pythagorean
lower bound, the sampled point cannot satisfy the rejection test of
the grass loop. -/
lemma forcedDraw_rejects_corridor (cosA sinA : ℚ → ℚ)
    (hlb : ∀ θ : ℚ, 99/100 ≤ cosA θ ^ 2 + sinA θ ^ 2)
    (v : ℕ) (hf : forcedDraw (rngNext (rngNext v)) = true) :
    ¬ (|sinA (randVal v) * (randVal (rngNext v) * (73/10))| < 11/10 ∧
       -(11/2) < cosA (randVal v) * (randVal (rngNext v) * (73/10)) ∧
       cosA (randVal v) * (randVal (rngNext v) * (73/10)) < 32/5) := by
  rintro ⟨hz, hx1, hx2⟩
  unfold forcedDraw at hf
  have hint := of_decide_eq_true hf
  have hq : (421700 : ℚ) * (2147483646 : ℚ) ^ 2 ≤
      527571 * (((rngNext (rngNext v) : ℚ)) - 1) ^ 2 := by exact_mod_cast hint
  have hr : randVal (rngNext v) * 2147483646 = ((rngNext (rngNext v) : ℚ) - 1) := by
    unfold randVal
    field_simp
  have hr2 : (421700 : ℚ) ≤ 527571 * randVal (rngNext v) ^ 2 := by
    have hkey : 527571 * (randVal (rngNext v) ^ 2) * 2147483646 ^ 2 =
        527571 * ((rngNext (rngNext v) : ℚ) - 1) ^ 2 := by
      rw [← hr]; ring
    nlinarith [hq, hkey]
  have hcs := hlb (randVal v)
  rcases abs_lt.mp hz with ⟨hz1, hz2⟩
  have hzz : (sinA (randVal v) * (randVal (rngNext v) * (73/10))) ^ 2 < 121/100 := by
    nlinarith [mul_pos
      (by linarith : (0:ℚ) < 11/10 - sinA (randVal v) * (randVal (rngNext v) * (73/10)))
      (by linarith : (0:ℚ) < sinA (randVal v) * (randVal (rngNext v) * (73/10)) + 11/10)]
  have hxx : (cosA (randVal v) * (randVal (rngNext v) * (73/10))) ^ 2 < 4096/100 := by
    nlinarith [mul_pos
      (by linarith : (0:ℚ) < 32/5 - cosA (randVal v) * (randVal (rngNext v) * (73/10)))
      (by linarith : (0:ℚ) < cosA (randVal v) * (randVal (rngNext v) * (73/10)) + 32/5)]
  have hexp : (cosA (randVal v) * (randVal (rngNext v) * (73/10))) ^ 2 +
      (sinA (randVal v) * (randVal (rngNext v) * (73/10))) ^ 2 =
      (cosA (randVal v) ^ 2 + sinA (randVal v) ^ 2) *
        (randVal (rngNext v) ^ 2 * (5329/100)) := by
    ring
  have hsum : (4217/100 : ℚ) ≤ (cosA (randVal v) * (randVal (rngNext v) * (73/10))) ^ 2 +
      (sinA (randVal v) * (randVal (rngNext v) * (73/10))) ^ 2 := by
    rw [hexp]
    nlinarith [mul_nonneg
      (by linarith : (0:ℚ) ≤ cosA (randVal v) ^ 2 + sinA (randVal v) ^ 2 - 99/100)
      (mul_nonneg (sq_nonneg (randVal (rngNext v))) (by norm_num : (0:ℚ) ≤ (5329/100 : ℚ))),
      hr2]
  linarith

/-- The rejection-sampling while-loop of the GrassField effect, as a
function of a fuel bound on the number of iterations. The generator draws
are taken from the exact Park-Miller sequence; cosA and sinA stand for the
host cosine and sine precomposed with multiplication by 2 pi, so they
receive the raw draw r where the source computes Math.cos(r * Math.PI * 2)
and Math.sin(r * Math.PI * 2). One iteration draws an angle and a distance;
a draw inside the road corridor is rejected, otherwise the scale and the
raw rotation are drawn and the instance is appended. The loop exits when
600 instances are placed. -/
def grassLoop (cosA sinA : ℚ → ℚ) : ℕ → ℕ → List GrassInstance → ℕ × List GrassInstance
  | 0, v, acc => (v, acc)
  | fuel + 1, v, acc =>
    if 600 ≤ acc.length then (v, acc)
    else
      if |sinA (randVal v) * (randVal (rngNext v) * (73/10))| < 11/10 ∧
          -(11/2) < cosA (randVal v) * (randVal (rngNext v) * (73/10)) ∧
          cosA (randVal v) * (randVal (rngNext v) * (73/10)) < 32/5 then
        grassLoop cosA sinA fuel (rngNext (rngNext v)) acc
      else
        grassLoop cosA sinA fuel (rngNext (rngNext (rngNext (rngNext v))))
          (acc ++ [⟨⟨cosA (randVal v) * (randVal (rngNext v) * (73/10)), 7/100,
                    sinA (randVal v) * (randVal (rngNext v) * (73/10))⟩,
                   ⟨(3/5 + randVal (rngNext (rngNext v)) * (4/5)) * (4/5),
                    3/5 + randVal (rngNext (rngNext v)) * (4/5),
                    (3/5 + randVal (rngNext (rngNext v)) * (4/5)) * (4/5)⟩,
                   randVal (rngNext (rngNext (rngNext v)))⟩])

/-- One-step unfolding of the grass loop. -/
lemma grassLoop_succ (cosA sinA : ℚ → ℚ) (fuel v : ℕ) (acc : List GrassInstance) :
    grassLoop cosA sinA (fuel + 1) v acc =
      if 600 ≤ acc.length then (v, acc)
      else
        if |sinA (randVal v) * (randVal (rngNext v) * (73/10))| < 11/10 ∧
            -(11/2) < cosA (randVal v) * (randVal (rngNext v) * (73/10)) ∧
            cosA (randVal v) * (randVal (rngNext v) * (73/10)) < 32/5 then
          grassLoop cosA sinA fuel (rngNext (rngNext v)) acc
        else
          grassLoop cosA sinA fuel (rngNext (rngNext (rngNext (rngNext v))))
            (acc ++ [⟨⟨cosA (randVal v) * (randVal (rngNext v) * (73/10)), 7/100,
                      sinA (randVal v) * (randVal (rngNext v) * (73/10))⟩,
                     ⟨(3/5 + randVal (rngNext (rngNext v)) * (4/5)) * (4/5),
                      3/5 + randVal (rngNext (rngNext v)) * (4/5),
                      (3/5 + randVal (rngNext (rngNext v)) * (4/5)) * (4/5)⟩,
                     randVal (rngNext (rngNext (rngNext v)))⟩]) := rfl

/-- Once 600 instances are placed the loop exits immediately. -/
lemma grassLoop_of_full (cosA sinA : ℚ → ℚ) :
    ∀ fuel v acc, 600 ≤ acc.length → grassLoop cosA sinA fuel v acc = (v, acc) := by
  intro fuel v acc h
  cases fuel with
  | zero => rfl
  | succ fuel =>
    rw [grassLoop_succ, if_pos h]

/-- Running the loop for a + b iterations runs it for a and then for b. -/
lemma grassLoop_add (cosA sinA : ℚ → ℚ) (a b : ℕ) : ∀ v acc,
    grassLoop cosA sinA (a + b) v acc =
      grassLoop cosA sinA b (grassLoop cosA sinA a v acc).1
        (grassLoop cosA sinA a v acc).2 := by
  induction a with
  | zero =>
    intro v acc
    rw [Nat.zero_add]
    rfl
  | succ a ih =>
    intro v acc
    rw [Nat.succ_add]
    by_cases hfull : 600 ≤ acc.length
    · rw [grassLoop_of_full cosA sinA (a + b + 1) v acc hfull,
        grassLoop_of_full cosA sinA (a + 1) v acc hfull]
      exact (grassLoop_of_full cosA sinA b v acc hfull).symm
    · rw [grassLoop_succ cosA sinA (a + b) v acc, grassLoop_succ cosA sinA a v acc,
        if_neg hfull, if_neg hfull]
      by_cases hc : |sinA (randVal v) * (randVal (rngNext v) * (73/10))| < 11/10 ∧
          -(11/2) < cosA (randVal v) * (randVal (rngNext v) * (73/10)) ∧
          cosA (randVal v) * (randVal (rngNext v) * (73/10)) < 32/5
      · rw [if_pos hc, if_pos hc]
        exact ih _ _
      · rw [if_neg hc, if_neg hc]
        exact ih _ _

/-- Main counting argument: when the forced distance draws among the fuel
budget, counted in pairs, together with twice the number of already placed
instances reach 1199, the loop fills exactly 600 instances. Every rejected
iteration consumes one unforced distance draw, and every accepted iteration
consumes at most two forced draws. -/
lemma grassLoop_count (cosA sinA : ℚ → ℚ)
    (hlb : ∀ θ : ℚ, 99/100 ≤ cosA θ ^ 2 + sinA θ ^ 2) :
    ∀ fuel v acc, acc.length ≤ 600 →
      1199 ≤ forcedCount v fuel + 2 * acc.length →
      ((grassLoop cosA sinA fuel v acc).2).length = 600 := by
  intro fuel
  induction fuel with
  | zero =>
    intro v acc hle hcnt
    have h0 : forcedCount v 0 = 0 := rfl
    show acc.length = 600
    omega
  | succ fuel ih =>
    intro v acc hle hcnt
    by_cases hfull : 600 ≤ acc.length
    · rw [grassLoop_of_full cosA sinA (fuel + 1) v acc hfull]
      show acc.length = 600
      omega
    · have hlt : acc.length < 600 := by omega
      have hfc : forcedCount v (fuel + 1) =
          (if forcedDraw (rngNext (rngNext v)) then 1 else 0) +
            forcedCount (rngNext (rngNext v)) fuel := rfl
      by_cases hc : |sinA (randVal v) * (randVal (rngNext v) * (73/10))| < 11/10 ∧
          -(11/2) < cosA (randVal v) * (randVal (rngNext v) * (73/10)) ∧
          cosA (randVal v) * (randVal (rngNext v) * (73/10)) < 32/5
      · have hnf : ¬ forcedDraw (rngNext (rngNext v)) = true := by
          intro hf
          exact forcedDraw_rejects_corridor cosA sinA hlb v hf hc
        have heq : grassLoop cosA sinA (fuel + 1) v acc =
            grassLoop cosA sinA fuel (rngNext (rngNext v)) acc := by
          rw [grassLoop_succ, if_neg hfull, if_pos hc]
        rw [heq]
        apply ih (rngNext (rngNext v)) acc hle
        rw [hfc, if_neg hnf] at hcnt
        omega
      · have heq : grassLoop cosA sinA (fuel + 1) v acc =
            grassLoop cosA sinA fuel (rngNext (rngNext (rngNext (rngNext v))))
              (acc ++ [⟨⟨cosA (randVal v) * (randVal (rngNext v) * (73/10)), 7/100,
                        sinA (randVal v) * (randVal (rngNext v) * (73/10))⟩,
                       ⟨(3/5 + randVal (rngNext (rngNext v)) * (4/5)) * (4/5),
                        3/5 + randVal (rngNext (rngNext v)) * (4/5),
                        (3/5 + randVal (rngNext (rngNext v)) * (4/5)) * (4/5)⟩,
                       randVal (rngNext (rngNext (rngNext v)))⟩]) := by
          rw [grassLoop_succ, if_neg hfull, if_neg hc]
        rw [heq]
        have hlen : (acc ++ [(⟨⟨cosA (randVal v) * (randVal (rngNext v) * (73/10)), 7/100,
            sinA (randVal v) * (randVal (rngNext v) * (73/10))⟩,
            ⟨(3/5 + randVal (rngNext (rngNext v)) * (4/5)) * (4/5),
            3/5 + randVal (rngNext (rngNext v)) * (4/5),
            (3/5 + randVal (rngNext (rngNext v)) * (4/5)) * (4/5)⟩,
            randVal (rngNext (rngNext (rngNext v)))⟩ : GrassInstance)]).length =
            acc.length + 1 := by
          simp
        by_cases hdone : acc.length + 1 = 600
        · rw [grassLoop_of_full cosA sinA fuel _ _ (by rw [hlen]; omega)]
          rw [hlen]
          exact hdone
        · cases fuel with
          | zero =>
            exfalso
            have hb : (if forcedDraw (rngNext (rngNext v)) then 1 else 0) ≤ 1 := by
              split <;> omega
            have h00 : forcedCount (rngNext (rngNext v)) 0 = 0 := rfl
            rw [hfc] at hcnt
            omega
          | succ fuel =>
            apply ih _ _ (by rw [hlen]; omega)
            rw [hlen]
            have hb1 : (if forcedDraw (rngNext (rngNext v)) then 1 else 0) ≤ 1 := by
              split <;> omega
            have hfc2 : forcedCount (rngNext (rngNext v)) (fuel + 1) =
                (if forcedDraw (rngNext (rngNext (rngNext (rngNext v)))) then 1 else 0) +
                  forcedCount (rngNext (rngNext (rngNext (rngNext v)))) fuel := rfl
            have hb2 : (if forcedDraw (rngNext (rngNext (rngNext (rngNext v)))) then 1
                else 0) ≤ 1 := by
              split <;> omega
            have hmono := forcedCount_mono fuel (rngNext (rngNext (rngNext (rngNext v))))
            rw [hfc, hfc2] at hcnt
            omega

/-- The position invariant of a written grass instance: height 0.07, within
squared distance 7.3^2 of the origin in the xz plane, and outside the road
corridor. -/
def goodGrass (g : GrassInstance) : Prop :=
  g.position.y = 7/100 ∧
  g.position.x ^ 2 + g.position.z ^ 2 ≤ (73/10) ^ 2 ∧
  ¬ (|g.position.z| < 11/10 ∧ -(11/2) < g.position.x ∧ g.position.x < 32/5)

/-- Every instance the loop appends satisfies the position invariant,
provided the trigonometric pair satisfies the Pythagorean upper bound. -/
lemma grassLoop_good (cosA sinA : ℚ → ℚ)
    (hub : ∀ θ : ℚ, cosA θ ^ 2 + sinA θ ^ 2 ≤ 1) :
    ∀ fuel v acc, (∀ g ∈ acc, goodGrass g) →
      ∀ g ∈ (grassLoop cosA sinA fuel v acc).2, goodGrass g := by
  intro fuel
  induction fuel with
  | zero =>
    intro v acc hacc
    exact hacc
  | succ fuel ih =>
    intro v acc hacc
    by_cases hfull : 600 ≤ acc.length
    · rw [grassLoop_of_full cosA sinA (fuel + 1) v acc hfull]
      exact hacc
    · by_cases hc : |sinA (randVal v) * (randVal (rngNext v) * (73/10))| < 11/10 ∧
          -(11/2) < cosA (randVal v) * (randVal (rngNext v) * (73/10)) ∧
          cosA (randVal v) * (randVal (rngNext v) * (73/10)) < 32/5
      · rw [grassLoop_succ, if_neg hfull, if_pos hc]
        exact ih _ _ hacc
      · rw [grassLoop_succ, if_neg hfull, if_neg hc]
        apply ih
        intro g hg
        rcases List.mem_append.mp hg with hg2 | hg2
        · exact hacc g hg2
        · have hgp := List.mem_singleton.mp hg2
          subst hgp
          refine ⟨rfl, ?_, hc⟩
          show (cosA (randVal v) * (randVal (rngNext v) * (73/10))) ^ 2 +
            (sinA (randVal v) * (randVal (rngNext v) * (73/10))) ^ 2 ≤ (73/10) ^ 2
          have hexp : (cosA (randVal v) * (randVal (rngNext v) * (73/10))) ^ 2 +
              (sinA (randVal v) * (randVal (rngNext v) * (73/10))) ^ 2 =
              (cosA (randVal v) ^ 2 + sinA (randVal v) ^ 2) *
                (randVal (rngNext v) ^ 2 * (5329/100)) := by ring
          rw [hexp]
          nlinarith [mul_nonneg
              (by linarith [hub (randVal v)] :
                (0:ℚ) ≤ 1 - (cosA (randVal v) ^ 2 + sinA (randVal v) ^ 2))
              (mul_nonneg (sq_nonneg (randVal (rngNext v)))
                (by norm_num : (0:ℚ) ≤ (5329/100 : ℚ))),
            randVal_sq_le_one (rngNext v)]

/-- C6: the rejection-sampling while-loop of GrassField terminates: drawing
successive values from the deterministic generator seeded with 42, for
every trigonometric pair satisfying the Pythagorean lower bound 99/100 the
loop accepts its 600th placement within 12000 iterations (hence after
finitely many draws), exactly 600 instance matrices are written, and
running any number of further iterations changes nothing because the loop
exits as soon as 600 instances are placed. -/
theorem c6_grass_loop_terminates (cosA sinA : ℚ → ℚ)
    (hlb : ∀ θ : ℚ, 99/100 ≤ cosA θ ^ 2 + sinA θ ^ 2) :
    ((grassLoop cosA sinA 12000 42 []).2).length = 600 ∧
    ∀ extra : ℕ,
      (grassLoop cosA sinA (12000 + extra) 42 []).2 = (grassLoop cosA sinA 12000 42 []).2 := by
  have h600 : ((grassLoop cosA sinA 12000 42 []).2).length = 600 :=
    grassLoop_count cosA sinA hlb 12000 42 [] (by simp)
      (by simpa using forcedCount_42_12000)
  refine ⟨h600, ?_⟩
  intro extra
  rw [grassLoop_add cosA sinA 12000 extra 42 [],
    grassLoop_of_full cosA sinA extra _ _ (le_of_eq h600.symm)]

/-- Witness for C6 with the constant trigonometric pair (1, 0). -/
theorem c6_grass_loop_terminates_witness :
    (∀ θ : ℚ, 99/100 ≤ (fun _ : ℚ => (1:ℚ)) θ ^ 2 + (fun _ : ℚ => (0:ℚ)) θ ^ 2) ∧
    ((grassLoop (fun _ : ℚ => (1:ℚ)) (fun _ : ℚ => (0:ℚ)) 12000 42 []).2).length = 600 :=
  ⟨fun θ => by norm_num,
    (c6_grass_loop_terminates (fun _ : ℚ => (1:ℚ)) (fun _ : ℚ => (0:ℚ))
      (fun θ => by norm_num)).1⟩

/-- C5: for every trigonometric pair satisfying the exact Pythagorean
identity, the grass loop seeded with 42 writes exactly 600 instance
matrices, and every one of them places its instance at height y = 0.07,
within xz-distance 7.3 of the origin (stated via squared distances), and
outside the road corridor: no placement satisfies |z| < 1.1 together with
x > -5.5 and x < 6.4. -/
theorem c5_grass_instances (cosA sinA : ℚ → ℚ)
    (hid : ∀ θ : ℚ, cosA θ ^ 2 + sinA θ ^ 2 = 1) :
    ((grassLoop cosA sinA 12000 42 []).2).length = 600 ∧
    ∀ g ∈ (grassLoop cosA sinA 12000 42 []).2, goodGrass g := by
  have hlb : ∀ θ : ℚ, 99/100 ≤ cosA θ ^ 2 + sinA θ ^ 2 := by
    intro θ
    rw [hid θ]
    norm_num
  have hub : ∀ θ : ℚ, cosA θ ^ 2 + sinA θ ^ 2 ≤ 1 := fun θ => le_of_eq (hid θ)
  refine ⟨grassLoop_count cosA sinA hlb 12000 42 [] (by simp)
      (by simpa using forcedCount_42_12000), ?_⟩
  apply grassLoop_good cosA sinA hub
  intro g hg
  cases hg

/-- Witness for C5 with the constant trigonometric pair (1, 0). -/
theorem c5_grass_instances_witness :
    (∀ θ : ℚ, (fun _ : ℚ => (1:ℚ)) θ ^ 2 + (fun _ : ℚ => (0:ℚ)) θ ^ 2 = 1) ∧
    ((grassLoop (fun _ : ℚ => (1:ℚ)) (fun _ : ℚ => (0:ℚ)) 12000 42 []).2).length = 600 :=
  ⟨fun θ => by norm_num,
    (c5_grass_instances (fun _ : ℚ => (1:ℚ)) (fun _ : ℚ => (0:ℚ))
      (fun θ => by norm_num)).1⟩
